import Mathlib

/-!
Verification development for the Ghost inline-streaming plugin
(`src/main.ts`).  The document buffer is modelled as a list of lines,
each line a list of characters (JavaScript string positions are
code-unit indices; all text relevant here is within the BMP so the
character-level model coincides).  The orchestrator
`processStreamingQuery`, the backward reference scan, the `+web`
strip, the response-style transforms, the SSE chunk-buffer splitter,
the delta-application logic, the citation de-duplication and the
spinner tick are embedded as executable functions, and the spec's
testable properties are proved about them.
-/

namespace Ghost

/-- Model of a JavaScript string: a list of characters. -/
abbrev JStr := List Char

/-- Model of an editor position: zero-based line and column (`ch`). -/
structure Pos where
  line : Nat
  ch : Nat
deriving DecidableEq, Repr

/-- Model of the document buffer: the list of its lines (newlines implicit). -/
abbrev Doc := List JStr

/-- Whitespace test used by the model of JavaScript `trim`. -/
def isWsChar (c : Char) : Bool :=
  c = ' ' || c = '\t' || c = '\n' || c = '\r' || c = '\x0b' || c = '\x0c'

/-- Model of JavaScript `String.prototype.trim` (both ends). -/
def jsTrim (s : JStr) : JStr :=
  ((s.dropWhile isWsChar).reverse.dropWhile isWsChar).reverse

/-- Split a string on newline characters, as JavaScript `s.split('\n')`:
the result is always nonempty, and empty segments are kept. -/
def splitNl : JStr → List JStr
  | [] => [[]]
  | c :: rest =>
    let r := splitNl rest
    if c = '\n' then [] :: r
    else (c :: r.headD []) :: r.tail

/-- Join segments with newline characters (left inverse of `splitNl`). -/
def joinNl : List JStr → JStr
  | [] => []
  | [l] => l
  | l :: ls => l ++ '\n' :: joinNl ls

/-- Model of `editor.getLine` (out-of-range reads give the empty string). -/
def getLine (doc : Doc) (n : Nat) : JStr := doc.getD n []

/-- Model of `editor.replaceRange text from to`: the text between the two
positions is replaced by `text`, which may span several lines.
With `f = t` this is a pure insertion, as in the Obsidian editor API. -/
def replaceRange (doc : Doc) (text : JStr) (f t : Pos) : Doc :=
  let left := (getLine doc f.line).take f.ch
  let right := (getLine doc t.line).drop t.ch
  let mid :=
    match splitNl text with
    | [] => [left ++ right]
    | [s] => [left ++ s ++ right]
    | s :: rest => (left ++ s) :: rest.dropLast ++ [rest.getLastD [] ++ right]
  doc.take f.line ++ mid ++ doc.drop (t.line + 1)

/-- Model of `editor.getRange from to` (the text between two positions). -/
def getRange (doc : Doc) (f t : Pos) : JStr :=
  if f.line = t.line then ((getLine doc f.line).take t.ch).drop f.ch
  else ((getLine doc f.line).drop f.ch) ++
       '\n' :: joinNl (((doc.drop (f.line + 1)).take (t.line - f.line - 1)) ++
                       [(getLine doc t.line).take t.ch])

/-! ## Reference scan (the regex `@([\w/.-]+)` with `matchAll`) -/

/-- Character class of the regex `[\w/.-]` (ASCII word characters,
slash, dot, dash). -/
def isTokChar (c : Char) : Bool :=
  c.isAlpha || c.isDigit || c = '_' || c = '/' || c = '.' || c = '-'

/-- Model of `line.matchAll(/@([\w\/.-]+)/g)`: every occurrence of `@`
followed by a maximal nonempty run of token characters, with its start
index and the captured token (without the `@`).  The regex engine
resumes scanning after each match; since `@` is not a token character a
match can never start inside a previous match's token, so the
char-by-char scan below yields the identical match list. -/
def findMatches : JStr → Nat → List (Nat × JStr)
  | [], _ => []
  | c :: rest, i =>
    if c = '@' then
      let tok := rest.takeWhile isTokChar
      if tok = [] then findMatches rest (i + 1)
      else (i, tok) :: findMatches rest (i + 1)
    else findMatches rest (i + 1)

/-- Model of the backward scan of `processStreamingQuery` (source lines
137–156): from line `i` down to line 0, return the first line holding a
match of the model regex together with that line's last match. -/
def findModelFrom (doc : Doc) : Nat → Option (Nat × Nat × JStr)
  | 0 =>
    match (findMatches (getLine doc 0) 0).getLast? with
    | some m => some (0, m)
    | none => none
  | j + 1 =>
    match (findMatches (getLine doc (j + 1)) 0).getLast? with
    | some m => some (j + 1, m)
    | none => findModelFrom doc j

/-! ## Prompt post-processing and response styles -/

/-- Literal marker for the web-search flag. -/
def webMarker : JStr := ['+', 'w', 'e', 'b']

/-- Model of the `+web` handling (source lines 189–193): if the prompt
ends with the marker, drop the last four characters and `trim`, and
report the flag. -/
def stripWeb (p : JStr) : JStr × Bool :=
  if webMarker.isSuffixOf p then (jsTrim (p.take (p.length - 4)), true)
  else (p, false)

/-- Enumerated response style (setting `responseStyle`). -/
inductive RespStyle where
  | plain
  | hr
  | callout
deriving DecidableEq, Repr

/-- Model of `content.replace(/\n/g, '\n> ')` (source line 412). -/
def replaceNlMarker : JStr → JStr
  | [] => []
  | a :: r =>
    if a = '\n' then '\n' :: '>' :: ' ' :: replaceNlMarker r
    else a :: replaceNlMarker r

/-- Per-delta style transformation (source lines 410–413): callout style
re-escapes embedded newlines, other styles pass content through. -/
def styleTransform (style : RespStyle) (c : JStr) : JStr :=
  if style = RespStyle.callout then replaceNlMarker c else c

/-- Text written for the first delta (source lines 425–427): callout
style gains one leading block-quote marker. -/
def firstChunkText (style : RespStyle) (c : JStr) : JStr :=
  if style = RespStyle.callout then '>' :: ' ' :: styleTransform style c
  else styleTransform style c

/-- Spinner frame glyphs (source line 202). -/
def spinnerGlyphs : List Char :=
  ['⠋', '⠙', '⠹', '⠸', '⠼', '⠴', '⠦', '⠧', '⠇', '⠏']

/-- Text of the spinner placeholder for frame `i` (source line 204). -/
def spinnerText (i : Nat) : JStr :=
  spinnerGlyphs.getD i ' ' :: ' ' :: ('G' :: 'e' :: 'n' :: 'e' :: 'r' :: 'a' :: 't' :: 'i' :: 'n' :: 'g' :: '.' :: '.' :: '.' :: [])

/-- Block-quote marker used ahead of the spinner in callout style. -/
def spinnerPre (style : RespStyle) : JStr :=
  if style = RespStyle.callout then ['>', ' '] else []

/-- Lines inserted ahead of the placeholder (source lines 206–217). -/
def stylePrefixText (style : RespStyle) : JStr :=
  match style with
  | RespStyle.plain => ['\n', '\n']
  | RespStyle.hr => ['\n', '\n', '-', '-', '-', '\n', '\n']
  | RespStyle.callout =>
      ('\n' :: '\n' :: '>' :: ' ' :: '[' :: '!' :: 'a' :: 'i' :: ']' :: ' ' :: 'G' :: 'h' :: 'o' :: 's' :: 't' :: '\n' :: '>' :: ' ' :: [])

/-- Style-dependent offset from the invocation line to the generation
line (source lines 208–216). -/
def genOffset (style : RespStyle) : Nat :=
  match style with
  | RespStyle.plain => 2
  | RespStyle.hr => 4
  | RespStyle.callout => 3

/-! ## Citations and the sources list -/

/-- Model of the `url_citation` payload of an annotation. -/
structure UrlCite where
  url : JStr
  title : JStr
deriving DecidableEq, Repr

/-- Model of one streamed citation record (`OpenRouterAnnotation`): the
`url_citation` field may be absent. -/
structure Cite where
  urlCitation : Option UrlCite
deriving DecidableEq, Repr

/-- Model of JavaScript `Map.set`: update the value in place if the key
is already present, otherwise append, preserving insertion order. -/
def mapSet (m : List (JStr × JStr)) (k v : JStr) : List (JStr × JStr) :=
  if m.any (fun p => p.1 == k) then
    m.map (fun p => if p.1 == k then (k, v) else p)
  else m ++ [(k, v)]

/-- Model of the URL-keyed de-duplication of collected citations
(source lines 334–339); a falsy (empty) title falls back to the URL. -/
def buildUniqueSources (cs : List Cite) : List (JStr × JStr) :=
  cs.foldl
    (fun m a =>
      match a.urlCitation with
      | some u => mapSet m u.url (if u.title = [] then u.url else u.title)
      | none => m)
    []

/-- Header of the rendered sources list (source line 342). -/
def sourcesHeader : JStr :=
  ('\n' :: '\n' :: '*' :: '*' :: 'S' :: 'o' :: 'u' :: 'r' :: 'c' :: 'e' :: 's' :: ':' :: '*' :: '*' :: '\n' :: [])

/-- One rendered source entry, a Markdown list item (source line 344). -/
def sourceEntry (title url : JStr) : JStr :=
  '-' :: ' ' :: '[' :: (title ++ ']' :: '(' :: url ++ [')', '\n'])

/-- Rendered text of the sources list (source lines 342–345). -/
def sourcesTextOf (m : List (JStr × JStr)) : JStr :=
  m.foldl (fun acc p => acc ++ sourceEntry p.2 p.1) sourcesHeader

/-! ## Stream events and delta application -/

/-- Result of a successful `JSON.parse` of one `data:` payload, reduced
to what the code reads from it: `choices[0]?.delta?.content || ""` and
the optional `delta.annotations` array. -/
structure Event where
  content : JStr
  cites : Option (List Cite)
deriving DecidableEq, Repr

/-- Per-invocation mutable state of the streaming loop: the document,
the tracked insertion position, the first-chunk flag, whether the
animator interval is still scheduled, the collected citations and the
notices shown so far. -/
structure StreamState where
  doc : Doc
  pos : Pos
  isFirstChunk : Bool
  timerOn : Bool
  collected : List Cite
  notices : List JStr
deriving DecidableEq, Repr

/-- Static configuration of the streaming loop. -/
structure Cfg where
  style : RespStyle
  genLine : Nat
deriving DecidableEq, Repr

/-- Model of the handling of one parsed stream event (source lines
400–488): collect annotations, then, for nonempty content, either
replace the whole generation line (first chunk, with a fallback when
the line vanished) or insert at the tracked position, recomputing the
position from the newline structure of the inserted text. -/
def applyEvent (cfg : Cfg) (ev : Event) (st : StreamState) : StreamState :=
  let st :=
    match ev.cites with
    | some cs => { st with collected := st.collected ++ cs }
    | none => st
  if ev.content = [] then st
  else
    let display := styleTransform cfg.style ev.content
    if st.isFirstChunk then
      let st := { st with timerOn := false }
      if st.doc.length > cfg.genLine then
        let curLen := (getLine st.doc cfg.genLine).length
        let display := firstChunkText cfg.style ev.content
        let doc' := replaceRange st.doc display ⟨cfg.genLine, 0⟩ ⟨cfg.genLine, curLen⟩
        let segs := splitNl display
        let pos' :=
          if segs.length > 1 then
            Pos.mk (cfg.genLine + (segs.length - 1)) (segs.getLastD []).length
          else Pos.mk cfg.genLine display.length
        { st with doc := doc', pos := pos', isFirstChunk := false }
      else
        let lastLine := st.doc.length - 1
        let lastLen := (getLine st.doc lastLine).length
        let fb :=
          if cfg.style = RespStyle.callout then
            '\n' :: '>' :: ' ' :: replaceNlMarker ev.content
          else ev.content
        let doc' := replaceRange st.doc ('\n' :: '\n' :: fb) ⟨lastLine, lastLen⟩ ⟨lastLine, lastLen⟩
        let endLine := doc'.length - 1
        let endCh := (getLine doc' endLine).length
        { st with doc := doc', pos := ⟨endLine, endCh⟩, isFirstChunk := false }
    else
      let doc' := replaceRange st.doc display st.pos st.pos
      let segs := splitNl display
      let pos' :=
        if segs.length > 1 then
          Pos.mk (st.pos.line + (segs.length - 1)) (segs.getLastD []).length
        else Pos.mk st.pos.line (st.pos.ch + display.length)
      { st with doc := doc', pos := pos' }

/-- Position advance of the subsequent-delta branch (source lines
471–483), factored out: for multi-line text the line advances by the
number of segments minus one and the column is the final segment's
length; for single-line text the column advances by the text length. -/
def advancePos (p : Pos) (t : JStr) : Pos :=
  let segs := splitNl t
  if segs.length > 1 then ⟨p.line + (segs.length - 1), (segs.getLastD []).length⟩
  else ⟨p.line, p.ch + t.length⟩

/-- Literal prefix of a data line of the wire protocol. -/
def dataPre : JStr := ['d', 'a', 't', 'a', ':', ' ']

/-- Literal sentinel payload ending the stream. -/
def doneLit : JStr := ['[', 'D', 'O', 'N', 'E', ']']

/-- Literal keep-alive comment line of the wire protocol. -/
def keepAliveLine : JStr :=
  (':' :: ' ' :: 'O' :: 'P' :: 'E' :: 'N' :: 'R' :: 'O' :: 'U' :: 'T' :: 'E' :: 'R' :: ' ' :: 'P' :: 'R' :: 'O' :: 'C' :: 'E' :: 'S' :: 'S' :: 'I' :: 'N' :: 'G' :: [])

/-- Literal prefix of an in-band error line of the wire protocol. -/
def errPre : JStr := ['e', 'r', 'r', 'o', 'r', ':', ' ']

/-- Notice text shown for an in-band stream error line. -/
def streamErrNotice (t : JStr) : JStr :=
  ('S' :: 't' :: 'r' :: 'e' :: 'a' :: 'm' :: ' ' :: 'E' :: 'r' :: 'r' :: 'o' :: 'r' :: ':' :: ' ' :: []) ++ t

/-- Model of the handling of one `data:` payload (source lines
398–491).  The external `JSON.parse`, reduced to the fields the code
reads, is the parameter `dec`; `none` models a parse failure, which is
logged and skipped without aborting the stream. -/
def onData (dec : JStr → Option Event) (cfg : Cfg) (st : StreamState) (d : JStr) : StreamState :=
  match dec d with
  | none => st
  | some ev => applyEvent cfg ev st

/-- Model of the handling of one complete wire line (source lines
387–498): skip blanks, the keep-alive comment and the `[DONE]`
sentinel, decode and apply `data:` payloads, surface `error:` lines as
notices, and ignore anything else. -/
def procLine (dec : JStr → Option Event) (cfg : Cfg) (st : StreamState) (line : JStr) : StreamState :=
  let t := jsTrim line
  if t = [] then st
  else if t = keepAliveLine then st
  else if dataPre.isPrefixOf t then
    let d := t.drop 6
    if d = doneLit then st
    else onData dec cfg st d
  else if errPre.isPrefixOf t then
    { st with notices := st.notices ++ [streamErrNotice t] }
  else st

/-- Model of the chunk loop (source lines 326–500, the non-`done` arm):
append the chunk to the carry buffer, split on newline, keep the final
(possibly incomplete) segment as the new carry, process the complete
lines in order, and continue with the remaining chunks. -/
def streamLoop (dec : JStr → Option Event) (cfg : Cfg) : JStr → List JStr → StreamState → StreamState
  | _, [], st => st
  | buf, c :: cs, st =>
    let ls := splitNl (buf ++ c)
    streamLoop dec cfg (ls.getLastD []) cs ((ls.dropLast).foldl (procLine dec cfg) st)

/-- Divider text appended after stream completion in divider style. -/
def dividerText : JStr := ['\n', '\n', '-', '-', '-']

/-- Advance of the tracked position used by the finalization inserts
(source lines 355–359 and 367–371): unconditionally the multi-line
formula. -/
def finalAdvance (p : Pos) (text : JStr) : Pos :=
  let segs := splitNl text
  ⟨p.line + (segs.length - 1), (segs.getLastD []).length⟩

/-- Model of the `done` arm of the read loop (source lines 328–374):
append the de-duplicated sources list if any citations were collected,
then the trailing divider in divider style, each advancing the tracked
position; the animator interval is not touched here. -/
def doneFinalize (style : RespStyle) (st : StreamState) : StreamState :=
  let st :=
    if st.collected.length > 0 then
      let m := buildUniqueSources st.collected
      if m.length > 0 then
        let sText := sourcesTextOf m
        let sText := if style = RespStyle.callout then replaceNlMarker sText else sText
        { st with doc := replaceRange st.doc sText st.pos st.pos,
                  pos := finalAdvance st.pos sText }
      else st
    else st
  if style = RespStyle.hr then
    { st with doc := replaceRange st.doc dividerText st.pos st.pos,
              pos := finalAdvance st.pos dividerText }
  else st

/-- Model of the cursor relocation after the loop (source lines
502–508): in `end` mode, ensure a fresh line break when not at column
0 and move the edit cursor there. -/
def cursorStep (cursorEnd : Bool) (doc : Doc) (p : Pos) : Doc × Pos × Option Pos :=
  if cursorEnd then
    if p.ch ≠ 0 then
      let doc' := replaceRange doc ['\n'] p p
      let p' : Pos := ⟨p.line + 1, 0⟩
      (doc', p', some p')
    else (doc, p, some p)
  else (doc, p, none)

/-! ## Orchestrator -/

/-- Configuration consumed by the orchestrator (the relevant fields of
the plugin settings). -/
structure Settings where
  apiKey : JStr
  trigger : JStr
  style : RespStyle
  cursorEnd : Bool
deriving DecidableEq, Repr

/-- Abstract HTTP response handed to the orchestrator: success flag,
status code, error body text, and the decoded body chunks (`none`
models an absent readable stream). -/
structure Response where
  ok : Bool
  status : Nat
  errText : JStr
  body : Option (List JStr)
deriving DecidableEq, Repr

/-- Observable outcome of one invocation: final document, notices
shown, whether a network request was issued, whether the animator
timer was started and whether it is still scheduled on return, whether
the stream ran to normal completion, and the edit-cursor relocation. -/
structure RunOut where
  doc : Doc
  notices : List JStr
  fetched : Bool
  timerStarted : Bool
  timerOn : Bool
  finished : Bool
  cursorSet : Option Pos
deriving DecidableEq, Repr

/-- Notice shown when no `@model` reference is found. -/
def noModelNotice : JStr :=
  ('G' :: 'h' :: 'o' :: 's' :: 't' :: ':' :: ' ' :: 'n' :: 'o' :: ' ' :: 'm' :: 'o' :: 'd' :: 'e' :: 'l' :: ' ' :: 's' :: 'p' :: 'e' :: 'c' :: 'i' :: 'f' :: 'i' :: 'e' :: 'd' :: ' ' :: '(' :: 'e' :: '.' :: 'g' :: '.' :: ' ' :: '@' :: 'm' :: 'o' :: 'd' :: 'e' :: 'l' :: '-' :: 'n' :: 'a' :: 'm' :: 'e' :: ')' :: '.' :: [])

/-- Notice shown when the configured API key is empty. -/
def apiKeyNotice : JStr :=
  ('A' :: 'P' :: 'I' :: ' ' :: 'k' :: 'e' :: 'y' :: ' ' :: 'm' :: 'i' :: 's' :: 's' :: 'i' :: 'n' :: 'g' :: '.' :: [])

/-- Decimal rendering of a natural number, as JavaScript interpolation
of a number. -/
def natToStr (n : Nat) : JStr := (Nat.repr n).toList

/-- Notice shown for a non-successful HTTP response (source line 308). -/
def ghostErrNotice (status : Nat) (errText : JStr) : JStr :=
  ('G' :: 'h' :: 'o' :: 's' :: 't' :: ' ' :: 'E' :: 'r' :: 'r' :: 'o' :: 'r' :: ':' :: ' ' :: []) ++
  natToStr status ++ (' ' :: '-' :: ' ' :: []) ++ errText.take 100

/-- Outcome of an early return before any buffer mutation. -/
def mkEarly (doc : Doc) (notice : JStr) : RunOut :=
  ⟨doc, [notice], false, false, false, false, none⟩

/-- Intermediate data after reference resolution, trigger removal and
placeholder insertion (source lines 168–225). -/
structure PrepOut where
  doc : Doc
  genLine : Nat
  prompt : JStr
  hasWebFlag : Bool
  context : JStr
deriving DecidableEq, Repr

/-- Model of the preparation phase (source lines 168–225): extract
context and prompt, strip the `+web` marker, remove the trigger phrase
if present, insert the placeholder lines, and compute the generation
line. -/
def prepare (S : Settings) (doc : Doc) (lineNum : Nat) (lineText : JStr)
    (mLine idx : Nat) (tok : JStr) : PrepOut :=
  let ctx := getRange doc ⟨0, 0⟩ ⟨mLine, idx⟩
  let promptEndCh :=
    if S.trigger.isSuffixOf lineText then lineText.length - S.trigger.length
    else lineText.length
  let shouldRemove := S.trigger.isSuffixOf lineText
  let promptStart : Pos := ⟨mLine, idx + (1 + tok.length)⟩
  let prompt0 := jsTrim (getRange doc promptStart ⟨lineNum, promptEndCh⟩)
  let pw := stripWeb prompt0
  let doc :=
    if shouldRemove then
      replaceRange doc [] ⟨lineNum, promptEndCh⟩ ⟨lineNum, lineText.length⟩
    else doc
  let placeholder := stylePrefixText S.style ++ spinnerText 0
  let doc := replaceRange doc placeholder ⟨lineNum, promptEndCh⟩ ⟨lineNum, promptEndCh⟩
  ⟨doc, lineNum + genOffset S.style, pw.1, pw.2, ctx⟩

/-- Model of `processStreamingQuery` (source lines 135–515): reference
scan, API-key check, preparation, the HTTP outcome, the streaming loop,
finalization and cursor relocation.  `dec` models the external
`JSON.parse`; `resp` is the abstract network outcome. -/
def processStreamingQuery (S : Settings) (dec : JStr → Option Event) (resp : Response)
    (doc : Doc) (lineNum : Nat) (lineText : JStr) : RunOut :=
  match findModelFrom doc lineNum with
  | none => mkEarly doc noModelNotice
  | some m =>
    if S.apiKey = [] then mkEarly doc apiKeyNotice
    else
      let p := prepare S doc lineNum lineText m.1 m.2.1 m.2.2
      if resp.ok = false then
        ⟨p.doc, [ghostErrNotice resp.status resp.errText], true, true, false, false, none⟩
      else
        match resp.body with
        | none => ⟨p.doc, [], true, true, false, false, none⟩
        | some chunks =>
          let cfg : Cfg := ⟨S.style, p.genLine⟩
          let st0 : StreamState := ⟨p.doc, ⟨p.genLine, 0⟩, true, true, [], []⟩
          let st1 := streamLoop dec cfg [] chunks st0
          let st2 := doneFinalize S.style st1
          let fin := cursorStep S.cursorEnd st2.doc st2.pos
          ⟨fin.1, st2.notices, true, true, st1.timerOn, true, fin.2.2⟩

/-! ## Placeholder animator tick -/

/-- State seen by one tick of the animator interval. -/
structure TickState where
  frameIdx : Nat
  doc : Doc
  intervalOn : Bool
deriving DecidableEq, Repr

/-- Model of one tick of the animator interval (source lines 227–244):
advance the frame, and overwrite the generation line with the next
frame only when its current content (minus the callout marker) still
starts with a spinner glyph; cancel the interval when the generation
line no longer exists.  The second component reports whether a write
was performed. -/
def tick (style : RespStyle) (genLine : Nat) (s : TickState) : TickState × Bool :=
  let fi := (s.frameIdx + 1) % spinnerGlyphs.length
  if s.doc.length > genLine then
    let lineContent := getLine s.doc genLine
    let checkContent :=
      if style = RespStyle.callout then lineContent.drop 2 else lineContent
    if spinnerGlyphs.any (fun f => [f].isPrefixOf checkContent) then
      (⟨fi, replaceRange s.doc (spinnerPre style ++ spinnerText fi)
              ⟨genLine, 0⟩ ⟨genLine, lineContent.length⟩, s.intervalOn⟩, true)
    else (⟨fi, s.doc, s.intervalOn⟩, false)
  else (⟨fi, s.doc, false⟩, false)

/-- Settings used in the streaming scenario: nonempty key, trigger
`;;`, plain style, keep-cursor behavior. -/
def sampleSettings : Settings := ⟨['k'], [';', ';'], RespStyle.plain, false⟩

/-- One-line document holding a model reference, a prompt and the
trigger phrase. -/
def docHello : Doc := [['@', 'm', ' ', 'h', 'i', ' ', ';', ';']]

/-- Opaque-to-the-model wire payload whose decoding is the delta `Hel`. -/
def payloadHel : JStr := ['p', '1']

/-- Opaque-to-the-model wire payload whose decoding is the delta `lo`. -/
def payloadLo : JStr := ['p', '2']

/-- Parsed event carrying the content delta `Hel` and no annotations. -/
def evHel : Event := ⟨['H', 'e', 'l'], none⟩

/-- Parsed event carrying the content delta `lo` and no annotations. -/
def evLo : Event := ⟨['l', 'o'], none⟩

/-- Full wire text of the stream: two data frames and the `[DONE]`
sentinel, each followed by a blank line per the SSE framing. -/
def wireHello : JStr :=
  dataPre ++ payloadHel ++ '\n' :: '\n' ::
    (dataPre ++ payloadLo ++ '\n' :: '\n' :: (dataPre ++ doneLit ++ ['\n']))

/-- Concrete decoder for the two sample payloads. -/
def decSample : JStr → Option Event := fun d =>
  if d = payloadHel then some evHel
  else if d = payloadLo then some evLo
  else none

/-- Stream configuration of the scenario (plain style, generation line 2). -/
def cfgHello : Cfg := ⟨RespStyle.plain, 2⟩

/-- Stream state right after placeholder insertion in the scenario. -/
def stHello : StreamState :=
  ⟨[['@', 'm', ' ', 'h', 'i', ' '], [],
    ('⠋' :: ' ' :: 'G' :: 'e' :: 'n' :: 'e' :: 'r' :: 'a' :: 't' :: 'i' :: 'n' :: 'g' :: '.' :: '.' :: '.' :: [])],
   ⟨2, 0⟩, true, true, [], []⟩

/-- Stream state after the first delta replaced the placeholder line. -/
def stHelloMid : StreamState :=
  ⟨[['@', 'm', ' ', 'h', 'i', ' '], [], ['H', 'e', 'l']], ⟨2, 3⟩, false, false, [], []⟩

/-- Stream state after the second delta was inserted. -/
def stHelloDone : StreamState :=
  ⟨[['@', 'm', ' ', 'h', 'i', ' '], [], ['H', 'e', 'l', 'l', 'o']], ⟨2, 5⟩, false, false, [], []⟩


/-- Predicate for the callout invariant: every newline character is
immediately followed by a block-quote marker. -/
def nlMarked : JStr → Bool
  | [] => true
  | a :: r =>
    if a = '\n' then
      (match r with
       | '>' :: ' ' :: _ => true
       | _ => false) && nlMarked r
    else nlMarked r

/-! ## Theory of the newline splitter -/

theorem splitNl_cons (c : Char) (s : JStr) :
    splitNl (c :: s) =
      if c = '\n' then [] :: splitNl s
      else (c :: (splitNl s).headD []) :: (splitNl s).tail := rfl

theorem splitNl_ne_nil (s : JStr) : splitNl s ≠ [] := by
  cases s with
  | nil => simp [splitNl]
  | cons c rest =>
    rw [splitNl_cons]
    split <;> simp

theorem getLastD_of_ne_nil {α : Type} (l : List α) (d d' : α) (h : l ≠ []) :
    l.getLastD d = l.getLastD d' := by
  cases l with
  | nil => exact absurd rfl h
  | cons a t =>
    simp only [List.getLastD_eq_getLast?]
    cases hl : (a :: t).getLast? with
    | none => exact absurd (List.getLast?_eq_none_iff.mp hl) (by simp)
    | some x => simp

theorem getLastD_cons_of_ne_nil {α : Type} (a : α) (l : List α) (d : α) (h : l ≠ []) :
    (a :: l).getLastD d = l.getLastD d := by
  cases l with
  | nil => exact absurd rfl h
  | cons b t =>
    simp only [List.getLastD_eq_getLast?, List.getLast?_cons_cons]

theorem splitNl_append (a b : JStr) :
    splitNl (a ++ b) =
      (splitNl a).dropLast ++
        ((splitNl a).getLastD [] ++ (splitNl b).headD []) :: (splitNl b).tail := by
  induction a with
  | nil =>
    cases hb : splitNl b with
    | nil => exact absurd hb (splitNl_ne_nil b)
    | cons y ys => simp [splitNl, hb]
  | cons c a ih =>
    cases ha : splitNl a with
    | nil => exact absurd ha (splitNl_ne_nil a)
    | cons x xs =>
      rw [List.cons_append, splitNl_cons, splitNl_cons, ih, ha]
      by_cases hc : c = '\n'
      · rw [if_pos hc, if_pos hc]
        cases xs with
        | nil => simp
        | cons z zs => simp
      · rw [if_neg hc, if_neg hc]
        cases xs with
        | nil =>
          cases hb : splitNl b with
          | nil => exact absurd hb (splitNl_ne_nil b)
          | cons y ys => simp
        | cons z zs =>
          simp only [List.dropLast_cons₂, List.cons_append, List.headD_cons, List.tail_cons]
          rw [getLastD_cons_of_ne_nil x (z :: zs) [] (by simp),
              getLastD_cons_of_ne_nil (c :: x) (z :: zs) [] (by simp)]

theorem splitNl_single (s : JStr) (h : '\n' ∉ s) : splitNl s = [s] := by
  induction s with
  | nil => simp [splitNl]
  | cons c rest ih =>
    simp only [List.mem_cons, not_or] at h
    rw [splitNl_cons, if_neg (Ne.symm h.1), ih h.2]
    simp

theorem not_nl_mem_splitNl (s : JStr) : ∀ l ∈ splitNl s, '\n' ∉ l := by
  induction s with
  | nil => simp [splitNl]
  | cons c rest ih =>
    intro l hl
    cases hr : splitNl rest with
    | nil => exact absurd hr (splitNl_ne_nil rest)
    | cons y ys =>
      rw [splitNl_cons, hr] at hl
      by_cases hc : c = '\n'
      · rw [if_pos hc] at hl
        rcases List.mem_cons.mp hl with h1 | h1
        · simp [h1]
        · exact ih l (by rw [hr]; exact h1)
      · rw [if_neg hc] at hl
        simp only [List.headD_cons, List.tail_cons] at hl
        rcases List.mem_cons.mp hl with h1 | h1
        · subst h1
          intro hmem
          rcases List.mem_cons.mp hmem with h2 | h2
          · exact hc h2.symm
          · exact ih y (by rw [hr]; exact List.mem_cons_self y ys) h2
        · exact ih l (by rw [hr]; exact List.mem_cons_of_mem y h1)

theorem joinNl_cons (l : JStr) (ls : List JStr) (h : ls ≠ []) :
    joinNl (l :: ls) = l ++ '\n' :: joinNl ls := by
  cases ls with
  | nil => exact absurd rfl h
  | cons x xs => rfl

theorem joinNl_splitNl (s : JStr) : joinNl (splitNl s) = s := by
  induction s with
  | nil => simp [splitNl, joinNl]
  | cons c rest ih =>
    by_cases hc : c = '\n'
    · rw [splitNl_cons, if_pos hc,
          joinNl_cons [] (splitNl rest) (splitNl_ne_nil rest), ih, hc]
      simp
    · rw [splitNl_cons, if_neg hc]
      cases hr : splitNl rest with
      | nil => exact absurd hr (splitNl_ne_nil rest)
      | cons y ys =>
        rw [hr] at ih
        cases ys with
        | nil =>
          simp only [List.headD_cons, List.tail_cons, joinNl]
          simpa [joinNl] using ih
        | cons z zs =>
          simp only [List.headD_cons, List.tail_cons]
          rw [joinNl_cons (c :: y) (z :: zs) (by simp), List.cons_append,
              ← joinNl_cons y (z :: zs) (by simp), ih]

theorem splitNl_length (s : JStr) : (splitNl s).length = s.count '\n' + 1 := by
  induction s with
  | nil => simp [splitNl]
  | cons c rest ih =>
    by_cases hc : c = '\n'
    · rw [splitNl_cons, if_pos hc, hc]
      simp [ih, List.count_cons]
    · cases hr : splitNl rest with
      | nil => exact absurd hr (splitNl_ne_nil rest)
      | cons y ys =>
        rw [hr] at ih
        rw [splitNl_cons, if_neg hc, hr]
        simp only [List.headD_cons, List.tail_cons, List.length_cons] at ih ⊢
        rw [List.count_cons]
        simp [ih, hc]

/-! ## Index helpers for the line-based buffer -/

theorem getD_append_lt {α : Type} (A C : List α) (k : Nat) (d : α) (h : k < A.length) :
    (A ++ C).getD k d = A.getD k d := by
  simp [List.getD, List.getElem?_append_left h]

theorem getD_append_offset {α : Type} (A C : List α) (k : Nat) (d : α) :
    (A ++ C).getD (A.length + k) d = C.getD k d := by
  simp [List.getD, List.getElem?_append_right (Nat.le_add_right A.length k)]

theorem getD_drop {α : Type} (l : List α) (n k : Nat) (d : α) :
    (l.drop n).getD k d = l.getD (n + k) d := by
  simp [List.getD, List.getElem?_drop]

theorem drop_append_offset {α : Type} (A C : List α) (k : Nat) :
    (A ++ C).drop (A.length + k) = C.drop k := by
  rw [← List.drop_drop, List.drop_left]

/-! ## Chunking invariance of the stream read loop -/

theorem streamLoop_flatten (dec : JStr → Option Event) (cfg : Cfg) (cs : List JStr)
    (buf : JStr) (hb : '\n' ∉ buf) (st : StreamState) :
    streamLoop dec cfg buf cs st =
      ((splitNl (buf ++ cs.flatten)).dropLast).foldl (procLine dec cfg) st := by
  induction cs generalizing buf st with
  | nil =>
    rw [streamLoop]
    simp [splitNl_single buf hb]
  | cons c cs ih =>
    rw [streamLoop]
    have hlast : '\n' ∉ (splitNl (buf ++ c)).getLastD [] := by
      cases hl : splitNl (buf ++ c) with
      | nil => exact absurd hl (splitNl_ne_nil (buf ++ c))
      | cons y ys =>
        have : (y :: ys).getLastD [] ∈ y :: ys := by
          cases ys with
          | nil => simp [List.getLastD_eq_getLast?]
          | cons z zs =>
            rw [getLastD_cons_of_ne_nil y (z :: zs) [] (by simp)]
            exact List.mem_cons_of_mem y (by
              simp only [List.getLastD_eq_getLast?]
              cases hz : (z :: zs).getLast? with
              | none => exact absurd (List.getLast?_eq_none_iff.mp hz) (by simp)
              | some w => simpa using List.mem_of_mem_getLast? hz)
        exact not_nl_mem_splitNl (buf ++ c) _ (by rw [hl]; exact this)
    rw [ih _ hlast]
    have key : splitNl (buf ++ (c :: cs).flatten) =
        (splitNl (buf ++ c)).dropLast ++ splitNl ((splitNl (buf ++ c)).getLastD [] ++ cs.flatten) := by
      have h1 : buf ++ (c :: cs).flatten = (buf ++ c) ++ cs.flatten := by
        simp [List.flatten_cons, List.append_assoc]
      rw [h1, splitNl_append (buf ++ c) cs.flatten,
          splitNl_append ((splitNl (buf ++ c)).getLastD []) cs.flatten,
          splitNl_single _ hlast]
      simp
    rw [key, List.dropLast_append_of_ne_nil _ (splitNl_ne_nil _), List.foldl_append]


/-! ## Reduction of a successful run to the streaming loop -/

theorem run_ok_reduce (S : Settings) (dec : JStr → Option Event) (doc : Doc)
    (lineNum : Nat) (lineText : JStr) (status : Nat) (errText : JStr)
    (chunks : List JStr) (m : Nat × Nat × JStr)
    (hm : findModelFrom doc lineNum = some m) (hk : ¬ S.apiKey = []) :
    processStreamingQuery S dec ⟨true, status, errText, some chunks⟩ doc lineNum lineText =
      (let p := prepare S doc lineNum lineText m.1 m.2.1 m.2.2
       let st1 := streamLoop dec ⟨S.style, p.genLine⟩ [] chunks
         ⟨p.doc, ⟨p.genLine, 0⟩, true, true, [], []⟩
       let st2 := doneFinalize S.style st1
       let fin := cursorStep S.cursorEnd st2.doc st2.pos
       (⟨fin.1, st2.notices, true, true, st1.timerOn, true, fin.2.2⟩ : RunOut)) := by
  unfold processStreamingQuery
  rw [hm]
  simp [hk]

/-- CLAIM C1: for a response stream whose content deltas are the
single-line sequence `Hel`, `lo` (the first delta replaces the
placeholder line, the second is a pure insertion at the tracked
position), the final content of the generation line is `Hello`,
regardless of how the wire text was split into network chunks. -/
theorem c1_stream_chunking (dec : JStr → Option Event) (chunks : List JStr)
    (h1 : dec payloadHel = some evHel) (h2 : dec payloadLo = some evLo)
    (hc : chunks.flatten = wireHello) :
    getLine (processStreamingQuery sampleSettings dec ⟨true, 200, [], some chunks⟩
      docHello 0 (getLine docHello 0)).doc 2 = ['H', 'e', 'l', 'l', 'o'] := by
  have hrun : (processStreamingQuery sampleSettings dec ⟨true, 200, [], some chunks⟩
      docHello 0 (getLine docHello 0)).doc =
      (cursorStep false
        (doneFinalize RespStyle.plain (streamLoop dec cfgHello [] chunks stHello)).doc
        (doneFinalize RespStyle.plain (streamLoop dec cfgHello [] chunks stHello)).pos).1 := rfl
  have hloop : streamLoop dec cfgHello [] chunks stHello = stHelloDone := by
    rw [streamLoop_flatten dec cfgHello chunks [] (by simp) stHello, hc]
    rw [show (splitNl ([] ++ wireHello)).dropLast =
          [dataPre ++ payloadHel, [], dataPre ++ payloadLo, [], dataPre ++ doneLit] from rfl]
    simp only [List.foldl_cons, List.foldl_nil]
    rw [show procLine dec cfgHello stHello (dataPre ++ payloadHel) =
          onData dec cfgHello stHello payloadHel from rfl]
    have o1 : onData dec cfgHello stHello payloadHel = applyEvent cfgHello evHel stHello := by
      unfold onData
      rw [h1]
    rw [o1, show applyEvent cfgHello evHel stHello = stHelloMid from rfl,
        show procLine dec cfgHello stHelloMid [] = stHelloMid from rfl,
        show procLine dec cfgHello stHelloMid (dataPre ++ payloadLo) =
          onData dec cfgHello stHelloMid payloadLo from rfl]
    have o2 : onData dec cfgHello stHelloMid payloadLo = applyEvent cfgHello evLo stHelloMid := by
      unfold onData
      rw [h2]
    rw [o2, show applyEvent cfgHello evLo stHelloMid = stHelloDone from rfl,
        show procLine dec cfgHello stHelloDone [] = stHelloDone from rfl,
        show procLine dec cfgHello stHelloDone (dataPre ++ doneLit) = stHelloDone from rfl]
  rw [hrun, hloop]
  rfl

/-- Witness for C1: a concrete decoder and a concrete two-chunk split of
the wire whose boundary falls inside the first data frame. -/
theorem c1_stream_chunking_witness :
    decSample payloadHel = some evHel ∧ decSample payloadLo = some evLo ∧
    [wireHello.take 7, wireHello.drop 7].flatten = wireHello ∧
    getLine (processStreamingQuery sampleSettings decSample
      ⟨true, 200, [], some [wireHello.take 7, wireHello.drop 7]⟩
      docHello 0 (getLine docHello 0)).doc 2 = ['H', 'e', 'l', 'l', 'o'] :=
  ⟨rfl, rfl, by simp,
   c1_stream_chunking decSample [wireHello.take 7, wireHello.drop 7] rfl rfl (by simp)⟩

/-- CLAIM C9 (counterexample): the `+web` strip is not idempotent — on
the trimmed prompt `a+web+web` the strip yields `a+web`, and applying
the strip to that output strips again, yielding `a`. -/
theorem c9_strip_not_idempotent :
    ¬ ((stripWeb (stripWeb ('a' :: (webMarker ++ webMarker))).1).1
        = (stripWeb ('a' :: (webMarker ++ webMarker))).1) := by decide

/-- CLAIM C9 (amended): the `+web` strip is lossless for prompts not
ending in the marker (they are returned unchanged with the flag unset),
and applying the strip to its own output is a no-op whenever that
output does not itself end in `+web`. -/
theorem c9_strip_amended (p : JStr) (h : webMarker.isSuffixOf (stripWeb p).1 = false) :
    stripWeb (stripWeb p).1 = ((stripWeb p).1, false) ∧
    (webMarker.isSuffixOf p = false → stripWeb p = (p, false)) := by
  have hnoop : ∀ q : JStr, webMarker.isSuffixOf q = false → stripWeb q = (q, false) := by
    intro q hq
    unfold stripWeb
    rw [hq]
    simp
  exact ⟨hnoop _ h, fun h2 => hnoop p h2⟩

/-- Witness for the amended C9 at the concrete prompt `a +web`. -/
theorem c9_strip_amended_witness :
    webMarker.isSuffixOf (stripWeb ('a' :: ' ' :: webMarker)).1 = false ∧
    stripWeb (stripWeb ('a' :: ' ' :: webMarker)).1 = ((stripWeb ('a' :: ' ' :: webMarker)).1, false) :=
  ⟨by decide, (c9_strip_amended ('a' :: ' ' :: webMarker) (by decide)).1⟩

/-- CLAIM C7: plain and divider styles pass every delta through
completely unchanged (also on the first chunk), while under callout
style every newline inside the transformed content is followed by a
block-quote marker and the first delta gains exactly one leading
marker. -/
theorem c7_style_transform (c : JStr) :
    styleTransform RespStyle.plain c = c ∧
    styleTransform RespStyle.hr c = c ∧
    firstChunkText RespStyle.plain c = c ∧
    firstChunkText RespStyle.hr c = c ∧
    nlMarked (styleTransform RespStyle.callout c) = true ∧
    firstChunkText RespStyle.callout c = '>' :: ' ' :: styleTransform RespStyle.callout c := by
  refine ⟨rfl, rfl, rfl, rfl, ?_, rfl⟩
  show nlMarked (replaceNlMarker c) = true
  induction c with
  | nil => rfl
  | cons a r ih =>
    by_cases ha : a = '\n'
    · subst ha
      simp [replaceNlMarker, nlMarked, ih]
    · simp [replaceNlMarker, ha, nlMarked, ih]

/-- CLAIM C8: collected citations for URLs `A, A, B` with titles
`t1, t2, t3` de-duplicate by URL to exactly two map entries, one per
unique URL (the later title wins for the duplicated URL), and the
rendered sources list holds exactly the two corresponding entries. -/
theorem c8_citation_dedup (A B t1 t2 t3 : JStr) (hAB : A ≠ B) (h2 : t2 ≠ []) (h3 : t3 ≠ []) :
    buildUniqueSources [⟨some ⟨A, t1⟩⟩, ⟨some ⟨A, t2⟩⟩, ⟨some ⟨B, t3⟩⟩] = [(A, t2), (B, t3)] ∧
    (buildUniqueSources [⟨some ⟨A, t1⟩⟩, ⟨some ⟨A, t2⟩⟩, ⟨some ⟨B, t3⟩⟩]).length = 2 ∧
    sourcesTextOf (buildUniqueSources [⟨some ⟨A, t1⟩⟩, ⟨some ⟨A, t2⟩⟩, ⟨some ⟨B, t3⟩⟩]) =
      sourcesHeader ++ sourceEntry t2 A ++ sourceEntry t3 B := by
  have hm : buildUniqueSources [⟨some ⟨A, t1⟩⟩, ⟨some ⟨A, t2⟩⟩, ⟨some ⟨B, t3⟩⟩]
      = [(A, t2), (B, t3)] := by
    have h0 : buildUniqueSources [⟨some ⟨A, t1⟩⟩, ⟨some ⟨A, t2⟩⟩, ⟨some ⟨B, t3⟩⟩]
        = mapSet (mapSet (mapSet [] A (if t1 = [] then A else t1))
            A (if t2 = [] then A else t2)) B (if t3 = [] then B else t3) := rfl
    rw [h0, show mapSet [] A (if t1 = [] then A else t1)
          = [(A, if t1 = [] then A else t1)] from by simp [mapSet]]
    rw [show mapSet [(A, if t1 = [] then A else t1)] A (if t2 = [] then A else t2)
          = [(A, if t2 = [] then A else t2)] from by simp [mapSet]]
    rw [if_neg h2, if_neg h3]
    simp [mapSet, hAB]
  exact ⟨hm, by rw [hm]; rfl, by rw [hm]; rfl⟩

/-- Witness for C8 at concrete URLs and titles. -/
theorem c8_citation_dedup_witness :
    (buildUniqueSources [⟨some ⟨['A'], ['x']⟩⟩, ⟨some ⟨['A'], ['y']⟩⟩, ⟨some ⟨['B'], ['z']⟩⟩]).length = 2 :=
  (c8_citation_dedup ['A'] ['B'] ['x'] ['y'] ['z'] (by decide) (by decide) (by decide)).2.1

/-- CLAIM C6: with an empty API key every invocation shows a notice,
issues no network request, starts no animator timer and leaves the
document buffer untouched. -/
theorem c6_missing_api_key (S : Settings) (dec : JStr → Option Event) (resp : Response)
    (doc : Doc) (lineNum : Nat) (lineText : JStr) (hk : S.apiKey = []) :
    (processStreamingQuery S dec resp doc lineNum lineText).doc = doc ∧
    (processStreamingQuery S dec resp doc lineNum lineText).notices ≠ [] ∧
    (processStreamingQuery S dec resp doc lineNum lineText).fetched = false ∧
    (processStreamingQuery S dec resp doc lineNum lineText).timerStarted = false := by
  unfold processStreamingQuery
  cases hm : findModelFrom doc lineNum with
  | none => simp [mkEarly]
  | some m => simp [hk, mkEarly]

/-- Witness for C6: empty key, concrete document and response. -/
theorem c6_missing_api_key_witness :
    (⟨[], [';', ';'], RespStyle.plain, false⟩ : Settings).apiKey = [] ∧
    (processStreamingQuery ⟨[], [';', ';'], RespStyle.plain, false⟩ decSample
      ⟨true, 200, [], none⟩ docHello 0 (getLine docHello 0)).doc = docHello :=
  ⟨rfl, (c6_missing_api_key ⟨[], [';', ';'], RespStyle.plain, false⟩ decSample
      ⟨true, 200, [], none⟩ docHello 0 (getLine docHello 0) rfl).1⟩

/-! ## The animator timer across a content-free stream -/

theorem applyEvent_empty_content (cfg : Cfg) (ev : Event) (st : StreamState)
    (h : ev.content = []) :
    (applyEvent cfg ev st).timerOn = st.timerOn := by
  unfold applyEvent
  cases ev.cites with
  | none => simp [h]
  | some cs => simp [h]

theorem procLine_timer (dec : JStr → Option Event) (cfg : Cfg) (st : StreamState)
    (l : JStr) (hdec : ∀ d ev, dec d = some ev → ev.content = []) :
    (procLine dec cfg st l).timerOn = st.timerOn := by
  unfold procLine
  by_cases h1 : jsTrim l = []
  · simp [h1]
  · simp only [if_neg h1]
    by_cases h2 : jsTrim l = keepAliveLine
    · simp [h2]
    · simp only [if_neg h2]
      by_cases h3 : dataPre.isPrefixOf (jsTrim l) = true
      · simp only [h3, if_true]
        by_cases h4 : (jsTrim l).drop 6 = doneLit
        · simp [h4]
        · simp only [if_neg h4]
          unfold onData
          cases hd : dec ((jsTrim l).drop 6) with
          | none => rfl
          | some ev => exact applyEvent_empty_content cfg ev st (hdec _ ev hd)
      · simp only [Bool.not_eq_true] at h3
        simp only [h3, Bool.false_eq_true, if_false]
        by_cases h5 : errPre.isPrefixOf (jsTrim l) = true
        · simp [h5]
        · simp only [Bool.not_eq_true] at h5
          simp [h5]

theorem foldl_procLine_timer (dec : JStr → Option Event) (cfg : Cfg)
    (ls : List JStr) (st : StreamState)
    (hdec : ∀ d ev, dec d = some ev → ev.content = []) :
    (ls.foldl (procLine dec cfg) st).timerOn = st.timerOn := by
  induction ls generalizing st with
  | nil => rfl
  | cons l ls ih => rw [List.foldl_cons, ih, procLine_timer dec cfg st l hdec]

theorem streamLoop_timer (dec : JStr → Option Event) (cfg : Cfg) (buf : JStr)
    (cs : List JStr) (st : StreamState)
    (hdec : ∀ d ev, dec d = some ev → ev.content = []) :
    (streamLoop dec cfg buf cs st).timerOn = st.timerOn := by
  induction cs generalizing buf st with
  | nil => rfl
  | cons c cs ih =>
    rw [streamLoop, ih, foldl_procLine_timer dec cfg _ st hdec]

/-- CLAIM C10: a stream that completes normally without ever delivering
a nonempty content delta reaches finalization with the animator timer
still scheduled — the normal-completion path does not cancel the timer,
which is cleared only by the first nonempty content delta (or by the
error paths). -/
theorem c10_content_free_stream (S : Settings) (dec : JStr → Option Event)
    (doc : Doc) (lineNum : Nat) (lineText : JStr) (status : Nat) (errText : JStr)
    (chunks : List JStr) (m : Nat × Nat × JStr)
    (hm : findModelFrom doc lineNum = some m) (hk : ¬ S.apiKey = [])
    (hdec : ∀ d ev, dec d = some ev → ev.content = []) :
    (processStreamingQuery S dec ⟨true, status, errText, some chunks⟩ doc lineNum lineText).timerOn
      = true ∧
    (processStreamingQuery S dec ⟨true, status, errText, some chunks⟩ doc lineNum lineText).finished
      = true := by
  rw [run_ok_reduce S dec doc lineNum lineText status errText chunks m hm hk]
  exact ⟨streamLoop_timer dec _ [] chunks _ hdec, rfl⟩

/-- Witness for C10: a decoder that never parses (every event is
skipped), hence a content-free stream, on the concrete document. -/
theorem c10_content_free_stream_witness :
    (processStreamingQuery sampleSettings (fun _ => none) ⟨true, 200, [], some [wireHello]⟩
      docHello 0 (getLine docHello 0)).timerOn = true :=
  (c10_content_free_stream sampleSettings (fun _ => none) docHello 0 (getLine docHello 0)
    200 [] [wireHello] (0, 0, ['m']) rfl (by decide) (fun _ _ h => nomatch h)).1

/-! ## Splice lemmas for the buffer model -/

theorem replaceRange_single (doc : Doc) (text : JStr) (f t : Pos) (s : JStr)
    (hs : splitNl text = [s]) :
    replaceRange doc text f t =
      doc.take f.line ++
        [(getLine doc f.line).take f.ch ++ s ++ (getLine doc t.line).drop t.ch] ++
        doc.drop (t.line + 1) := by
  unfold replaceRange
  rw [hs]

theorem replaceRange_multi (doc : Doc) (text : JStr) (f t : Pos) (s : JStr)
    (rest : List JStr) (hs : splitNl text = s :: rest) (hr : rest ≠ []) :
    replaceRange doc text f t =
      doc.take f.line ++
        (((getLine doc f.line).take f.ch ++ s) ::
          (rest.dropLast ++ [rest.getLastD [] ++ (getLine doc t.line).drop t.ch])) ++
        doc.drop (t.line + 1) := by
  unfold replaceRange
  rw [hs]
  cases rest with
  | nil => exact absurd rfl hr
  | cons z zs => rfl

theorem getLine_splice (A M B : Doc) (n k : Nat) (hA : A.length = n) (hk : k < M.length) :
    getLine (A ++ M ++ B) (n + k) = M.getD k [] := by
  rw [List.append_assoc]
  unfold getLine
  rw [← hA, getD_append_offset A (M ++ B) k []]
  exact getD_append_lt M B k [] hk

theorem length_splice (A M B : Doc) : (A ++ M ++ B).length = A.length + M.length + B.length := by
  simp [List.length_append]
  omega

/-! ## Location of the placeholder after preparation -/

theorem getLine_splice_zero (A M B : Doc) (n : Nat) (hA : A.length = n) (hk : 0 < M.length) :
    getLine (A ++ M ++ B) n = M.getD 0 [] := by
  have h := getLine_splice A M B n 0 hA hk
  simpa using h

theorem getLine_insert_placeholder (doc₁ : Doc) (n pe : Nat) (style : RespStyle)
    (hn : n < doc₁.length) (hright : (getLine doc₁ n).drop pe = []) :
    getLine (replaceRange doc₁ (stylePrefixText style ++ spinnerText 0) ⟨n, pe⟩ ⟨n, pe⟩)
      (n + genOffset style) = spinnerPre style ++ spinnerText 0 := by
  have hA : (doc₁.take n).length = n := List.length_take_of_le (Nat.le_of_lt hn)
  cases style with
  | plain =>
    rw [replaceRange_multi doc₁ (stylePrefixText RespStyle.plain ++ spinnerText 0)
          ⟨n, pe⟩ ⟨n, pe⟩ [] [[], spinnerText 0] rfl (by simp)]
    dsimp only
    simp only [genOffset]
    rw [getLine_splice (doc₁.take n)
          (((getLine doc₁ n).take pe ++ []) ::
            ([[], spinnerText 0].dropLast ++
              [[[], spinnerText 0].getLastD [] ++ (getLine doc₁ n).drop pe]))
          (doc₁.drop (n + 1)) n 2 hA (by simp)]
    show spinnerText 0 ++ (getLine doc₁ n).drop pe = _
    rw [hright]
    simp [spinnerPre]
  | hr =>
    rw [replaceRange_multi doc₁ (stylePrefixText RespStyle.hr ++ spinnerText 0)
          ⟨n, pe⟩ ⟨n, pe⟩ [] [[], ['-', '-', '-'], [], spinnerText 0] rfl (by simp)]
    dsimp only
    simp only [genOffset]
    rw [getLine_splice (doc₁.take n)
          (((getLine doc₁ n).take pe ++ []) ::
            ([[], ['-', '-', '-'], [], spinnerText 0].dropLast ++
              [[[], ['-', '-', '-'], [], spinnerText 0].getLastD [] ++ (getLine doc₁ n).drop pe]))
          (doc₁.drop (n + 1)) n 4 hA (by simp)]
    show spinnerText 0 ++ (getLine doc₁ n).drop pe = _
    rw [hright]
    simp [spinnerPre]
  | callout =>
    rw [replaceRange_multi doc₁ (stylePrefixText RespStyle.callout ++ spinnerText 0)
          ⟨n, pe⟩ ⟨n, pe⟩ []
          [[], ('>' :: ' ' :: '[' :: '!' :: 'a' :: 'i' :: ']' :: ' ' :: 'G' :: 'h' :: 'o' :: 's' :: 't' :: []),
           '>' :: ' ' :: spinnerText 0] rfl (by simp)]
    dsimp only
    simp only [genOffset]
    rw [getLine_splice (doc₁.take n)
          (((getLine doc₁ n).take pe ++ []) ::
            ([[], ('>' :: ' ' :: '[' :: '!' :: 'a' :: 'i' :: ']' :: ' ' :: 'G' :: 'h' :: 'o' :: 's' :: 't' :: []),
              '>' :: ' ' :: spinnerText 0].dropLast ++
              [[[], ('>' :: ' ' :: '[' :: '!' :: 'a' :: 'i' :: ']' :: ' ' :: 'G' :: 'h' :: 'o' :: 's' :: 't' :: []),
                '>' :: ' ' :: spinnerText 0].getLastD [] ++ (getLine doc₁ n).drop pe]))
          (doc₁.drop (n + 1)) n 3 hA (by simp)]
    show ('>' :: ' ' :: spinnerText 0) ++ (getLine doc₁ n).drop pe = _
    rw [hright]
    simp [spinnerPre]

theorem prepare_genLine (S : Settings) (doc : Doc) (lineNum : Nat) (lineText : JStr)
    (mL idx : Nat) (tok : JStr)
    (hdoc : getLine doc lineNum = lineText) (hn : lineNum < doc.length) :
    getLine (prepare S doc lineNum lineText mL idx tok).doc (lineNum + genOffset S.style)
      = spinnerPre S.style ++ spinnerText 0 := by
  have hstep : (prepare S doc lineNum lineText mL idx tok).doc =
      replaceRange
        (if S.trigger.isSuffixOf lineText then
            replaceRange doc []
              ⟨lineNum, if S.trigger.isSuffixOf lineText then
                  lineText.length - S.trigger.length else lineText.length⟩
              ⟨lineNum, lineText.length⟩
          else doc)
        (stylePrefixText S.style ++ spinnerText 0)
        ⟨lineNum, if S.trigger.isSuffixOf lineText then
            lineText.length - S.trigger.length else lineText.length⟩
        ⟨lineNum, if S.trigger.isSuffixOf lineText then
            lineText.length - S.trigger.length else lineText.length⟩ := rfl
  rw [hstep]
  by_cases htrig : S.trigger.isSuffixOf lineText
  · simp only [htrig, if_true]
    have hrem : replaceRange doc [] ⟨lineNum, lineText.length - S.trigger.length⟩
        ⟨lineNum, lineText.length⟩ =
        doc.take lineNum ++
          [lineText.take (lineText.length - S.trigger.length) ++ lineText.drop lineText.length] ++
          doc.drop (lineNum + 1) := by
      rw [replaceRange_single doc [] ⟨lineNum, lineText.length - S.trigger.length⟩
            ⟨lineNum, lineText.length⟩ [] rfl]
      dsimp only
      rw [hdoc]
      simp
    rw [hrem]
    have hlen : (doc.take lineNum ++
        [lineText.take (lineText.length - S.trigger.length) ++ lineText.drop lineText.length] ++
        doc.drop (lineNum + 1)).length = doc.length := by
      rw [length_splice, List.length_take_of_le (Nat.le_of_lt hn)]
      simp only [List.length_singleton, List.length_drop]
      omega
    apply getLine_insert_placeholder
    · rw [hlen]
      exact hn
    · rw [getLine_splice_zero (doc.take lineNum)
            [lineText.take (lineText.length - S.trigger.length) ++ lineText.drop lineText.length]
            (doc.drop (lineNum + 1)) lineNum
            (List.length_take_of_le (Nat.le_of_lt hn)) (by simp)]
      show List.drop _ (lineText.take (lineText.length - S.trigger.length) ++
          lineText.drop lineText.length) = []
      rw [List.drop_length, List.append_nil]
      apply List.drop_eq_nil_of_le
      rw [List.length_take]
      omega
  · simp only [htrig, if_false]
    apply getLine_insert_placeholder doc lineNum lineText.length S.style hn
    rw [hdoc, List.drop_length]

/-- CLAIM C5: on a non-successful HTTP response the animator timer is
stopped, a notice containing the status code is shown, no streaming is
attempted, and the document is left exactly as prepared — the
generation line still holds the frame-0 placeholder. -/
theorem c5_http_error (S : Settings) (dec : JStr → Option Event) (resp : Response)
    (doc : Doc) (lineNum : Nat) (lineText : JStr) (m : Nat × Nat × JStr)
    (hm : findModelFrom doc lineNum = some m) (hk : ¬ S.apiKey = []) (hok : resp.ok = false)
    (hdoc : getLine doc lineNum = lineText) (hn : lineNum < doc.length) :
    (processStreamingQuery S dec resp doc lineNum lineText).doc
      = (prepare S doc lineNum lineText m.1 m.2.1 m.2.2).doc ∧
    (processStreamingQuery S dec resp doc lineNum lineText).timerStarted = true ∧
    (processStreamingQuery S dec resp doc lineNum lineText).timerOn = false ∧
    (processStreamingQuery S dec resp doc lineNum lineText).finished = false ∧
    (processStreamingQuery S dec resp doc lineNum lineText).notices
      = [ghostErrNotice resp.status resp.errText] ∧
    natToStr resp.status <:+: ghostErrNotice resp.status resp.errText ∧
    getLine (processStreamingQuery S dec resp doc lineNum lineText).doc
      (lineNum + genOffset S.style) = spinnerPre S.style ++ spinnerText 0 := by
  have hrun : processStreamingQuery S dec resp doc lineNum lineText =
      ⟨(prepare S doc lineNum lineText m.1 m.2.1 m.2.2).doc,
       [ghostErrNotice resp.status resp.errText], true, true, false, false, none⟩ := by
    unfold processStreamingQuery
    rw [hm]
    simp [hk, hok]
  rw [hrun]
  refine ⟨rfl, rfl, rfl, rfl, rfl, ?_, ?_⟩
  · exact ⟨('G' :: 'h' :: 'o' :: 's' :: 't' :: ' ' :: 'E' :: 'r' :: 'r' :: 'o' :: 'r' :: ':' :: ' ' :: []),
      (' ' :: '-' :: ' ' :: []) ++ resp.errText.take 100, by simp [ghostErrNotice, List.append_assoc]⟩
  · exact prepare_genLine S doc lineNum lineText m.1 m.2.1 m.2.2 hdoc hn

/-- Witness for C5 at a concrete 401 response: the timer is stopped and
the generation line still holds the placeholder. -/
theorem c5_http_error_witness :
    (processStreamingQuery sampleSettings decSample ⟨false, 401, ['x'], none⟩ docHello 0
      (getLine docHello 0)).timerOn = false ∧
    getLine (processStreamingQuery sampleSettings decSample ⟨false, 401, ['x'], none⟩ docHello 0
      (getLine docHello 0)).doc (0 + genOffset sampleSettings.style)
      = spinnerPre sampleSettings.style ++ spinnerText 0 :=
  ⟨(c5_http_error sampleSettings decSample ⟨false, 401, ['x'], none⟩ docHello 0
      (getLine docHello 0) (0, 0, ['m']) rfl (by decide) rfl rfl (by decide)).2.2.1,
   (c5_http_error sampleSettings decSample ⟨false, 401, ['x'], none⟩ docHello 0
      (getLine docHello 0) (0, 0, ['m']) rfl (by decide) rfl rfl (by decide)).2.2.2.2.2.2⟩

/-! ## The spinner tick never touches foreign content -/

theorem getD_append_ge {α : Type} (A C : List α) (k : Nat) (d : α) (h : A.length ≤ k) :
    (A ++ C).getD k d = C.getD (k - A.length) d := by
  simp [List.getD, List.getElem?_append_right h]

theorem getD_take {α : Type} (l : List α) (n m : Nat) (d : α) (h : m < n) :
    (l.take n).getD m d = l.getD m d := by
  simp [List.getD, List.getElem?_take, h]

theorem getLine_replaceRange_line (doc : Doc) (text : JStr) (i a b : Nat) (j : Nat)
    (hnl : '\n' ∉ text) (hi : i < doc.length) :
    getLine (replaceRange doc text ⟨i, a⟩ ⟨i, b⟩) j =
      if j = i then (getLine doc i).take a ++ text ++ (getLine doc i).drop b
      else getLine doc j := by
  rw [replaceRange_single doc text ⟨i, a⟩ ⟨i, b⟩ text (splitNl_single text hnl)]
  dsimp only
  have hA : (doc.take i).length = i := List.length_take_of_le (Nat.le_of_lt hi)
  by_cases hj : j = i
  · subst hj
    rw [if_pos rfl]
    rw [getLine_splice_zero (doc.take j)
          [(getLine doc j).take a ++ text ++ (getLine doc j).drop b]
          (doc.drop (j + 1)) j hA (by simp)]
    rfl
  · rw [if_neg hj]
    rcases Nat.lt_or_ge j i with hlt | hge
    · unfold getLine
      rw [List.append_assoc, getD_append_lt (doc.take i) _ j [] (by rw [hA]; exact hlt)]
      exact getD_take doc i j [] hlt
    · have hgt : i < j := by omega
      unfold getLine
      rw [List.append_assoc, getD_append_ge (doc.take i) _ j [] (by rw [hA]; omega), hA]
      rw [getD_append_ge _ _ (j - i) [] (by simp; omega)]
      simp only [List.length_singleton]
      rw [getD_drop]
      congr 1
      omega

theorem glyph_ne_nl (i : Nat) : spinnerGlyphs.getD i ' ' ≠ '\n' := by
  rcases Nat.lt_or_ge i 10 with h | h
  · interval_cases i <;> decide
  · rw [List.getD_eq_default spinnerGlyphs ' ' (by simpa [spinnerGlyphs] using h)]
    decide

theorem spinner_no_nl (style : RespStyle) (i : Nat) :
    '\n' ∉ spinnerPre style ++ spinnerText i := by
  intro h
  rcases List.mem_append.mp h with h | h
  · cases style <;> simp [spinnerPre] at h
  · rcases List.mem_cons.mp h with h | h
    · exact glyph_ne_nl i h.symm
    · exact absurd h (by decide)

/-- CLAIM C4: one animator tick overwrites the generation line with the
next frame exactly when the line's current content (minus the callout
marker) still starts with a spinner glyph; it never changes any other
line, preserves the interval when the line exists, and cancels the
interval (touching nothing) when the generation line no longer exists. -/
theorem c4_tick (style : RespStyle) (genLine : Nat) (s : TickState) :
    (s.doc.length > genLine →
       ((tick style genLine s).2 = true ↔
         spinnerGlyphs.any (fun f => [f].isPrefixOf
           (if style = RespStyle.callout then (getLine s.doc genLine).drop 2
            else getLine s.doc genLine)) = true) ∧
       (tick style genLine s).1.intervalOn = s.intervalOn ∧
       ((tick style genLine s).2 = false → (tick style genLine s).1.doc = s.doc) ∧
       (∀ j, j ≠ genLine → getLine (tick style genLine s).1.doc j = getLine s.doc j) ∧
       ((tick style genLine s).2 = true →
         getLine (tick style genLine s).1.doc genLine =
           spinnerPre style ++ spinnerText ((s.frameIdx + 1) % spinnerGlyphs.length))) ∧
    (¬ s.doc.length > genLine →
       (tick style genLine s).1.doc = s.doc ∧ (tick style genLine s).1.intervalOn = false ∧
       (tick style genLine s).2 = false) := by
  by_cases hlen : s.doc.length > genLine
  · refine ⟨fun _ => ?_, fun h => absurd hlen h⟩
    by_cases hguard : spinnerGlyphs.any (fun f => [f].isPrefixOf
        (if style = RespStyle.callout then (getLine s.doc genLine).drop 2
         else getLine s.doc genLine)) = true
    · have ht : tick style genLine s =
          (⟨(s.frameIdx + 1) % spinnerGlyphs.length,
            replaceRange s.doc
              (spinnerPre style ++ spinnerText ((s.frameIdx + 1) % spinnerGlyphs.length))
              ⟨genLine, 0⟩ ⟨genLine, (getLine s.doc genLine).length⟩, s.intervalOn⟩, true) := by
        unfold tick
        rw [if_pos hlen, if_pos hguard]
      rw [ht]
      refine ⟨by simp [hguard], rfl, by simp, fun j hj => ?_, fun _ => ?_⟩
      · dsimp only
        rw [getLine_replaceRange_line s.doc _ genLine 0
              (getLine s.doc genLine).length j (spinner_no_nl style _) hlen, if_neg hj]
      · dsimp only
        rw [getLine_replaceRange_line s.doc _ genLine 0
              (getLine s.doc genLine).length genLine (spinner_no_nl style _) hlen, if_pos rfl]
        simp
    · have ht : tick style genLine s =
          (⟨(s.frameIdx + 1) % spinnerGlyphs.length, s.doc, s.intervalOn⟩, false) := by
        unfold tick
        rw [if_pos hlen, if_neg hguard]
      rw [ht]
      exact ⟨by simp [hguard], rfl, fun _ => rfl, fun j hj => rfl, by simp⟩
  · refine ⟨fun h => absurd h hlen, fun _ => ?_⟩
    have ht : tick style genLine s =
        (⟨(s.frameIdx + 1) % spinnerGlyphs.length, s.doc, false⟩, false) := by
      unfold tick
      rw [if_neg hlen]
    rw [ht]
    exact ⟨rfl, rfl, rfl⟩

/-- Witness for C4 on a one-line document whose line is a spinner line:
the interval stays scheduled and the write happens. -/
theorem c4_tick_witness :
    (tick RespStyle.plain 0 ⟨0, [('⠋' :: ' ' :: 'G' :: [])], true⟩).1.intervalOn = true ∧
    (tick RespStyle.plain 0 ⟨0, [('⠋' :: ' ' :: 'G' :: [])], true⟩).2 = true :=
  ⟨((c4_tick RespStyle.plain 0 ⟨0, [('⠋' :: ' ' :: 'G' :: [])], true⟩).1 (by decide)).2.1,
   ((c4_tick RespStyle.plain 0 ⟨0, [('⠋' :: ' ' :: 'G' :: [])], true⟩).1 (by decide)).1.mpr (by decide)⟩

/-! ## The backward reference scan -/

theorem findMatches_cons (c : Char) (rest : JStr) (i : Nat) :
    findMatches (c :: rest) i =
      if c = '@' then
        if rest.takeWhile isTokChar = [] then findMatches rest (i + 1)
        else (i, rest.takeWhile isTokChar) :: findMatches rest (i + 1)
      else findMatches rest (i + 1) := rfl

theorem findMatches_bound (s : JStr) (i : Nat) :
    ∀ m ∈ findMatches s i, i ≤ m.1 ∧ m.1 + 1 + m.2.length ≤ i + s.length := by
  induction s generalizing i with
  | nil => simp [findMatches]
  | cons c rest ih =>
    intro m hm
    rw [findMatches_cons] at hm
    by_cases hc : c = '@'
    · rw [if_pos hc] at hm
      by_cases htok : rest.takeWhile isTokChar = []
      · rw [if_pos htok] at hm
        have h := ih (i + 1) m hm
        constructor
        · omega
        · simp only [List.length_cons]
          omega
      · rw [if_neg htok] at hm
        rcases List.mem_cons.mp hm with h | h
        · subst h
          refine ⟨Nat.le_refl i, ?_⟩
          have hlen : (rest.takeWhile isTokChar).length ≤ rest.length :=
            List.Sublist.length_le (List.takeWhile_sublist isTokChar)
          simp only [List.length_cons]
          omega
        · have h2 := ih (i + 1) m h
          constructor
          · omega
          · simp only [List.length_cons]
            omega
    · rw [if_neg hc] at hm
      have h := ih (i + 1) m hm
      constructor
      · omega
      · simp only [List.length_cons]
        omega

theorem findModelFrom_eq (doc : Doc) (i : Nat) :
    findModelFrom doc i =
      match (findMatches (getLine doc i) 0).getLast? with
      | some m => some (i, m)
      | none =>
        match i with
        | 0 => none
        | j + 1 => findModelFrom doc j := by
  cases i with
  | zero => rw [findModelFrom]
  | succ j => rw [findModelFrom]

/-- CLAIM C3: the reference scan walks lines from the invocation line
up to line 0; when it returns a match, that match is the last regex
match on the nearest line holding any match, lies entirely within that
line (hence never after the invocation point), and all lines strictly
between it and the invocation line are match-free; when no line up to
line 0 has a match, every scanned line is match-free and the
orchestrator shows the no-model notice and performs no buffer
mutation. -/
theorem c3_reference_scan (doc : Doc) (lineNum : Nat) :
    (∀ r : Nat × Nat × JStr, findModelFrom doc lineNum = some r →
       r.1 ≤ lineNum ∧
       (findMatches (getLine doc r.1) 0).getLast? = some r.2 ∧
       r.2.1 + 1 + r.2.2.length ≤ (getLine doc r.1).length ∧
       (∀ j, r.1 < j → j ≤ lineNum → findMatches (getLine doc j) 0 = [])) ∧
    (findModelFrom doc lineNum = none →
       (∀ j, j ≤ lineNum → findMatches (getLine doc j) 0 = []) ∧
       (∀ (S : Settings) (dec : JStr → Option Event) (resp : Response) (lineText : JStr),
         processStreamingQuery S dec resp doc lineNum lineText = mkEarly doc noModelNotice)) := by
  induction lineNum with
  | zero =>
    constructor
    · intro r hr
      rw [findModelFrom_eq] at hr
      cases hL : (findMatches (getLine doc 0) 0).getLast? with
      | some m =>
        rw [hL] at hr
        cases hr
        refine ⟨Nat.le_refl 0, hL, ?_, ?_⟩
        · have hb := (findMatches_bound (getLine doc 0) 0 m
            (List.mem_of_mem_getLast? hL)).2
          simpa using hb
        · intro j hj1 hj2
          omega
      | none =>
        rw [hL] at hr
        cases hr
    · intro h0
      constructor
      · intro j hj
        have hj0 : j = 0 := Nat.le_zero.mp hj
        subst hj0
        rw [findModelFrom_eq] at h0
        cases hL : (findMatches (getLine doc 0) 0).getLast? with
        | some m => rw [hL] at h0; cases h0
        | none => exact List.getLast?_eq_none_iff.mp hL
      · intro S dec resp lineText
        unfold processStreamingQuery
        rw [h0]
  | succ n ih =>
    constructor
    · intro r hr
      have hr' := hr
      rw [findModelFrom_eq] at hr'
      cases hL : (findMatches (getLine doc (n + 1)) 0).getLast? with
      | some m =>
        rw [hL] at hr'
        cases hr'
        refine ⟨Nat.le_refl (n + 1), hL, ?_, ?_⟩
        · have hb := (findMatches_bound (getLine doc (n + 1)) 0 m
            (List.mem_of_mem_getLast? hL)).2
          simpa using hb
        · intro j hj1 hj2
          omega
      | none =>
        rw [hL] at hr'
        have h := ih.1 r hr'
        refine ⟨Nat.le_trans h.1 (Nat.le_succ n), h.2.1, h.2.2.1, ?_⟩
        intro j hj1 hj2
        rcases Nat.lt_or_ge j (n + 1) with hlt | hge
        · exact h.2.2.2 j hj1 (by omega)
        · have hj : j = n + 1 := by omega
          subst hj
          exact List.getLast?_eq_none_iff.mp hL
    · intro h0
      have h0' := h0
      rw [findModelFrom_eq] at h0'
      cases hL : (findMatches (getLine doc (n + 1)) 0).getLast? with
      | some m => rw [hL] at h0'; cases h0'
      | none =>
        rw [hL] at h0'
        constructor
        · intro j hj
          rcases Nat.lt_or_ge j (n + 1) with hlt | hge
          · exact (ih.2 h0').1 j (by omega)
          · have hj' : j = n + 1 := by omega
            subst hj'
            exact List.getLast?_eq_none_iff.mp hL
        · intro S dec resp lineText
          unfold processStreamingQuery
          rw [h0]

/-- Witness for C3 on the one-line sample document: the scan returns
the match on line 0. -/
theorem c3_reference_scan_witness :
    findModelFrom docHello 0 = some (0, 0, ['m']) ∧
    (0, 0, (['m'] : JStr)).1 ≤ 0 :=
  ⟨rfl, ((c3_reference_scan docHello 0).1 (0, 0, ['m']) rfl).1⟩

/-! ## Correctness of insertion at the tracked position -/

theorem drop_append_of_length {α : Type} (A C : List α) (n k : Nat) (hA : A.length = n) :
    (A ++ C).drop (n + k) = C.drop k := by
  rw [← hA, drop_append_offset]

theorem take_append_of_length {α : Type} (A C : List α) (n k : Nat) (hA : A.length = n) :
    (A ++ C).take (n + k) = A ++ C.take k := by
  rw [← hA]
  exact List.take_append k

theorem getD_append_len {α : Type} (A C : List α) (n : Nat) (d : α) (hA : A.length = n) :
    (A ++ C).getD n d = C.getD 0 d := by
  rw [← hA]
  simpa using getD_append_offset A C 0 d

theorem dropLast_append_getLastD {α : Type} (l : List α) (d : α) (h : l ≠ []) :
    l.dropLast ++ [l.getLastD d] = l := by
  rw [List.getLastD_eq_getLast?, List.getLast?_eq_getLast l h, Option.getD_some]
  exact List.dropLast_append_getLast h

theorem getRange_insert (doc : Doc) (t : JStr) (p : Pos)
    (hline : p.line < doc.length) (hch : p.ch ≤ (getLine doc p.line).length) :
    getRange (replaceRange doc t p p) p (advancePos p t) = t := by
  have hA : (doc.take p.line).length = p.line := List.length_take_of_le (Nat.le_of_lt hline)
  have hleft : ((getLine doc p.line).take p.ch).length = p.ch := List.length_take_of_le hch
  cases hs : splitNl t with
  | nil => exact absurd hs (splitNl_ne_nil t)
  | cons s rest =>
    cases rest with
    | nil =>
      have ht : s = t := by
        have hj := joinNl_splitNl t
        rw [hs] at hj
        simpa [joinNl] using hj
      subst ht
      have hq : advancePos p s = ⟨p.line, p.ch + s.length⟩ := by
        unfold advancePos
        rw [hs]
        simp
      rw [hq, replaceRange_single doc s p p s hs]
      unfold getRange
      dsimp only
      rw [if_pos rfl]
      rw [getLine_splice_zero (doc.take p.line)
            [(getLine doc p.line).take p.ch ++ s ++ (getLine doc p.line).drop p.ch]
            (doc.drop (p.line + 1)) p.line hA (by simp)]
      rw [show (([(getLine doc p.line).take p.ch ++ s ++ (getLine doc p.line).drop p.ch] : Doc).getD 0 [])
            = (getLine doc p.line).take p.ch ++ s ++ (getLine doc p.line).drop p.ch from rfl]
      rw [List.append_assoc]
      rw [take_append_of_length ((getLine doc p.line).take p.ch)
            (s ++ (getLine doc p.line).drop p.ch) p.ch s.length hleft]
      rw [List.take_left' (rfl : s.length = s.length)]
      exact List.drop_left' hleft
    | cons z zs =>
      have hrest : (z :: zs) ≠ ([] : List JStr) := by simp
      have hq : advancePos p t = ⟨p.line + (z :: zs).length, ((z :: zs).getLastD []).length⟩ := by
        unfold advancePos
        rw [hs, if_pos (by simp), getLastD_cons_of_ne_nil s (z :: zs) [] hrest]
        simp
      rw [hq, replaceRange_multi doc t p p s (z :: zs) hs hrest]
      unfold getRange
      dsimp only
      rw [if_neg (by simp only [List.length_cons]; omega)]
      have hdrop : ((doc.take p.line ++
          (((getLine doc p.line).take p.ch ++ s) ::
            ((z :: zs).dropLast ++
              [(z :: zs).getLastD [] ++ (getLine doc p.line).drop p.ch])) ++
          doc.drop (p.line + 1)) : Doc).drop (p.line + 1)
          = ((z :: zs).dropLast ++
              [(z :: zs).getLastD [] ++ (getLine doc p.line).drop p.ch]) ++
            doc.drop (p.line + 1) := by
        rw [List.append_assoc,
            drop_append_of_length (doc.take p.line) _ p.line 1 hA]
        rfl
      rw [hdrop]
      rw [getLine_splice_zero (doc.take p.line)
            (((getLine doc p.line).take p.ch ++ s) ::
              ((z :: zs).dropLast ++
                [(z :: zs).getLastD [] ++ (getLine doc p.line).drop p.ch]))
            (doc.drop (p.line + 1)) p.line hA (by simp)]
      rw [show (((((getLine doc p.line).take p.ch ++ s) ::
              ((z :: zs).dropLast ++
                [(z :: zs).getLastD [] ++ (getLine doc p.line).drop p.ch])) : Doc).getD 0 [])
            = (getLine doc p.line).take p.ch ++ s from rfl]
      rw [List.drop_left' hleft]
      rw [show p.line + (z :: zs).length - p.line - 1 = zs.length from by simp]
      rw [List.append_assoc ((z :: zs).dropLast)]
      rw [List.take_left' (show ((z :: zs).dropLast).length = zs.length from by
            simp [List.length_dropLast])]
      rw [getLine_splice (doc.take p.line)
            (((getLine doc p.line).take p.ch ++ s) ::
              ((z :: zs).dropLast ++
                [(z :: zs).getLastD [] ++ (getLine doc p.line).drop p.ch]))
            (doc.drop (p.line + 1)) p.line ((z :: zs).length) hA
            (by simp [List.length_dropLast])]
      rw [show ((z :: zs) : List JStr).length = zs.length + 1 from by simp]
      rw [List.getD_cons_succ]
      rw [getD_append_len ((z :: zs).dropLast)
            [(z :: zs).getLastD [] ++ (getLine doc p.line).drop p.ch] zs.length []
            (by simp [List.length_dropLast])]
      rw [show (([(z :: zs).getLastD [] ++ (getLine doc p.line).drop p.ch] : Doc).getD 0 [])
            = (z :: zs).getLastD [] ++ (getLine doc p.line).drop p.ch from rfl]
      rw [List.take_left' (rfl : ((z :: zs).getLastD []).length = ((z :: zs).getLastD []).length)]
      rw [dropLast_append_getLastD (z :: zs) [] hrest]
      rw [← joinNl_cons s (z :: zs) hrest, ← hs]
      exact joinNl_splitNl t

theorem applyEvent_subsequent (cfg : Cfg) (c : JStr) (st : StreamState)
    (hf : st.isFirstChunk = false) (hc : ¬ c = []) :
    applyEvent cfg ⟨c, none⟩ st =
      { st with doc := replaceRange st.doc (styleTransform cfg.style c) st.pos st.pos,
                pos := advancePos st.pos (styleTransform cfg.style c) } := by
  unfold applyEvent advancePos
  dsimp only
  rw [if_neg hc, hf]
  rfl

theorem advancePos_line (p : Pos) (t : JStr) :
    (advancePos p t).line = p.line + t.count '\n' := by
  unfold advancePos
  have hl := splitNl_length t
  by_cases h : (splitNl t).length > 1
  · rw [if_pos h]
    dsimp only
    omega
  · rw [if_neg h]
    dsimp only
    omega

theorem advancePos_ch_single (p : Pos) (t : JStr) (h : t.count '\n' = 0) :
    (advancePos p t).ch = p.ch + t.length := by
  unfold advancePos
  have hl := splitNl_length t
  rw [if_neg (by omega)]

theorem advancePos_ch_multi (p : Pos) (t : JStr) (h : 0 < t.count '\n') :
    (advancePos p t).ch = ((splitNl t).getLastD []).length := by
  unfold advancePos
  have hl := splitNl_length t
  rw [if_pos (by omega)]

/-- CLAIM C2: for a subsequent delta under plain style, the tracked
position advances by the delta's length in the column when the delta
has no newline, otherwise the line advances by the number of newlines
and the column becomes the length of the delta's final segment; at a
valid position the text readable between the old and new positions is
exactly the inserted delta (the position points immediately after the
last character written); and inserting `a`-newline-`b` after a prior
delta `x` lands the position at (line+1, 1). -/
theorem c2_insertion_cursor (cfg : Cfg) (st : StreamState) (c : JStr)
    (hst : cfg.style = RespStyle.plain) (hf : st.isFirstChunk = false) (hc : ¬ c = []) :
    ((applyEvent cfg ⟨c, none⟩ st).pos.line = st.pos.line + c.count '\n') ∧
    (c.count '\n' = 0 → (applyEvent cfg ⟨c, none⟩ st).pos.ch = st.pos.ch + c.length) ∧
    (0 < c.count '\n' →
      (applyEvent cfg ⟨c, none⟩ st).pos.ch = ((splitNl c).getLastD []).length) ∧
    (st.pos.line < st.doc.length → st.pos.ch ≤ (getLine st.doc st.pos.line).length →
      getRange (applyEvent cfg ⟨c, none⟩ st).doc st.pos (applyEvent cfg ⟨c, none⟩ st).pos = c) ∧
    (applyEvent cfg ⟨'a' :: '\n' :: ['b'], none⟩ (applyEvent cfg ⟨['x'], none⟩ st)).pos
      = ⟨st.pos.line + 1, 1⟩ := by
  have hplain : styleTransform cfg.style c = c := by
    rw [hst]
    rfl
  have hsub := applyEvent_subsequent cfg c st hf hc
  rw [hplain] at hsub
  refine ⟨?_, ?_, ?_, ?_, ?_⟩
  · rw [hsub]
    exact advancePos_line st.pos c
  · intro h
    rw [hsub]
    exact advancePos_ch_single st.pos c h
  · intro h
    rw [hsub]
    exact advancePos_ch_multi st.pos c h
  · intro h1 h2
    rw [hsub]
    exact getRange_insert st.doc c st.pos h1 h2
  · have hplainx : styleTransform cfg.style ['x'] = ['x'] := by
      rw [hst]
      rfl
    have hx := applyEvent_subsequent cfg ['x'] st hf (by simp)
    rw [hplainx] at hx
    have hfx : (applyEvent cfg ⟨['x'], none⟩ st).isFirstChunk = false := by
      rw [hx]
      exact hf
    have hplainab : styleTransform cfg.style ('a' :: '\n' :: ['b']) = 'a' :: '\n' :: ['b'] := by
      rw [hst]
      rfl
    have hab := applyEvent_subsequent cfg ('a' :: '\n' :: ['b'])
      (applyEvent cfg ⟨['x'], none⟩ st) hfx (by simp)
    rw [hplainab] at hab
    rw [hab]
    dsimp only
    rw [hx]
    dsimp only
    have h1 : advancePos st.pos ['x'] = ⟨st.pos.line, st.pos.ch + 1⟩ := by
      unfold advancePos
      rw [show splitNl ['x'] = [['x']] from rfl]
      simp
    rw [h1]
    unfold advancePos
    rw [show splitNl ('a' :: '\n' :: ['b']) = [['a'], ['b']] from rfl]
    rw [if_pos (by norm_num)]
    rfl

/-- Witness for C2 in the concrete streaming scenario: inserting `lo`
after `Hel` advances the column by two on the same line. -/
theorem c2_insertion_cursor_witness :
    (applyEvent cfgHello ⟨['l', 'o'], none⟩ stHelloMid).pos.line
      = stHelloMid.pos.line + (['l', 'o'] : JStr).count '\n' ∧
    (applyEvent cfgHello ⟨['l', 'o'], none⟩ stHelloMid).pos.ch
      = stHelloMid.pos.ch + (['l', 'o'] : JStr).length :=
  ⟨(c2_insertion_cursor cfgHello stHelloMid ['l', 'o'] rfl rfl (by decide)).1,
   (c2_insertion_cursor cfgHello stHelloMid ['l', 'o'] rfl rfl (by decide)).2.1 (by decide)⟩

end Ghost
